import Mathlib

/-!
Verification development for the BATTERY repository.

The monitor logic of `src/app.py` (class `BatteryMonitor`), the enhanced
variant `src/app_enhanced.py` (class `EnhancedBatteryMonitor`), the adaptive
poll policy of `src/ml_predictor.py` and the charge-cycle finalization of
`src/database.py` are embedded shallowly: times and percentages are rationals,
the mutable `self._...` fields become a record, and each Python method becomes
a pure function from inputs and old state to new state plus its observable
effects (notification fired, command accepted, ...).
-/

namespace Battery

/-! ## Rate estimator: the per-minute delta loop of `_monitor_loop`

Python (src/app.py lines 200-216, identical in src/app_enhanced.py 355-368):

    elapsed = (now_dt - self._minute_anchor_time).total_seconds()
    while elapsed >= 60.0 and self._minute_anchor_percent is not None:
        diff = percent - self._minute_anchor_percent
        self._per_minute_diffs.append(diff)
        self._minute_anchor_time = self._minute_anchor_time + timedelta(seconds=60)
        self._minute_anchor_percent = percent
        elapsed -= 60.0

The while loop is embedded with a fuel argument that is exactly the number of
iterations the loop performs, `(⌊elapsed/60⌋).toNat`; the loop guard
`60 ≤ elapsed` is still tested on every iteration, so the function computes
precisely what the Python loop computes. -/

def minuteLoopGo (percent : ℚ) :
    ℕ → ℚ → ℚ → ℚ → List ℚ → ℚ × ℚ × List ℚ
  | 0, anchorT, anchorP, _, diffs => (anchorT, anchorP, diffs)
  | fuel + 1, anchorT, anchorP, elapsed, diffs =>
      if 60 ≤ elapsed then
        minuteLoopGo percent fuel (anchorT + 60) percent (elapsed - 60)
          (diffs ++ [percent - anchorP])
      else
        (anchorT, anchorP, diffs)

def minuteLoop (percent anchorT anchorP elapsed : ℚ) (diffs : List ℚ) :
    ℚ × ℚ × List ℚ :=
  minuteLoopGo percent (⌊elapsed / 60⌋).toNat anchorT anchorP elapsed diffs

/-- The rate-estimator portion of the monitor state: the fields
`_minute_anchor_time`, `_minute_anchor_percent`, `_per_minute_diffs`
of `BatteryMonitor`, in a session where the anchors are initialized. -/
structure RateState where
  anchorTime : ℚ
  anchorPercent : ℚ
  diffs : List ℚ
deriving DecidableEq, Repr

/-- One poll tick of the per-minute tracking block, for a reading captured at
time `now` with percentage `percent` (src/app.py lines 205-216). -/
def observe (now percent : ℚ) (st : RateState) : RateState :=
  let r := minuteLoop percent st.anchorTime st.anchorPercent
    (now - st.anchorTime) st.diffs
  ⟨r.1, r.2.1, r.2.2⟩

/-- Feeding a whole sequence of readings `(capturedAt, percentage)` through
the per-minute tracking block, one poll tick per reading. -/
def observeAll (rs : List (ℚ × ℚ)) (st : RateState) : RateState :=
  rs.foldl (fun s r => observe r.1 r.2 s) st

/-- The capture time of the last reading of the sequence (the end of the
monitoring span), or the anchor time itself for an empty sequence. -/
def lastTime (rs : List (ℚ × ℚ)) (st : RateState) : ℚ :=
  (rs.getLast?).elim st.anchorTime Prod.fst

/-! ## Monitor state and the alert logic of `_monitor_loop`

The `self._...` fields of `BatteryMonitor.__init__` (src/app.py lines 33-52)
that the alert lifecycle reads or writes. -/

structure MState where
  threshold : ℤ
  startTime : Option ℚ
  startPercent : Option ℚ
  reachedTime : Option ℚ
  alerted : Bool
  alertActive : Bool
  snoozeUntil : Option ℚ
  dismissed : Bool
  lastBelow : Bool
  anchorTime : Option ℚ
  anchorPercent : Option ℚ
  diffs : List ℚ
deriving DecidableEq, Repr

/-- Re-arm block of a poll tick (src/app.py lines 172-179): when the reading
drops below the threshold after having been at or above it, dismissal and
alert flags are cleared.  The returned Bool reports whether this re-arm
transition fired on this tick. -/
def applyRearm (percent : ℚ) (s : MState) : MState × Bool :=
  let below : Bool := decide (percent < (s.threshold : ℚ))
  let re : Bool := below && !s.lastBelow
  let s :=
    if re then
      { s with dismissed := false, alerted := false, alertActive := false,
               reachedTime := none }
    else s
  ({ s with lastBelow := below }, re)

/-- Trigger block of a poll tick (src/app.py lines 190-198): when plugged,
not dismissed and at or above threshold, stamp `reachedTime` on first
satisfaction and invoke the notification sink unless the alert is already
active.  The returned Bool reports whether the sink was invoked. -/
def triggerStep (now percent : ℚ) (plugged : Bool) (s : MState) :
    MState × Bool :=
  if plugged && !s.dismissed && decide ((s.threshold : ℚ) ≤ percent) then
    let s := if s.reachedTime = none then { s with reachedTime := some now } else s
    if !s.alertActive then
      ({ s with alertActive := true, alerted := true }, true)
    else
      (s, false)
  else
    (s, false)

/-- Snooze gating of a poll tick (src/app.py lines 181-198): while snoozed the
trigger block is skipped entirely; an expired snooze is cleared and the
trigger block runs on the same tick. -/
def snoozeGate (now percent : ℚ) (plugged : Bool) (s : MState) :
    MState × Bool :=
  match s.snoozeUntil with
  | some su =>
      if now < su then (s, false)
      else triggerStep now percent plugged { s with snoozeUntil := none }
  | none => triggerStep now percent plugged s

/-- Per-minute tracking block of a poll tick (src/app.py lines 200-216), on
the optional anchor fields of the full monitor state. -/
def minuteTrack (now percent : ℚ) (s : MState) : MState :=
  match s.anchorTime, s.anchorPercent with
  | none, _ => { s with anchorTime := some now, anchorPercent := some percent }
  | some at_, some ap =>
      let r := minuteLoop percent at_ ap (now - at_) s.diffs
      { s with anchorTime := some r.1, anchorPercent := some r.2.1,
               diffs := r.2.2 }
  | some _, none => s

/-- One full poll tick of `_monitor_loop` (src/app.py lines 137-243), acting
on the alert state and the per-minute tracking.  Returns the new state, the
notified flag (the sink `_trigger_alert` was invoked), and the re-arm flag. -/
def tick (now percent : ℚ) (plugged : Bool) (s : MState) :
    MState × Bool × Bool :=
  let r1 := applyRearm percent s
  let r2 := snoozeGate now percent plugged r1.1
  (minuteTrack now percent r2.1, r2.2, r1.2)

/-- `_handle_snooze` (src/app.py lines 567-570): unconditionally snooze for
one minute and clear the active-alert flag.  There is no guard on the current
alert state. -/
def handle_snooze (now : ℚ) (s : MState) : MState :=
  { s with snoozeUntil := some (now + 60), alertActive := false }

/-- `_handle_dismiss` (src/app.py lines 572-580): rejected while plugged in
(a message is printed and the method returns with no mutation); otherwise the
dismissed flag is set and the active alert is cleared.  The Bool reports
whether the dismiss was accepted. -/
def handle_dismiss (plugged : Bool) (s : MState) : MState × Bool :=
  if plugged then
    (s, false)
  else
    ({ s with dismissed := true, alertActive := false }, true)

/-- `_update_threshold` of src/app.py (lines 110-135): clamp to [1,100], set
the threshold, clear `alerted`; then either restart the session anchors (when
still below the new threshold) or stamp `reachedTime`, beep, and set
`alerted` (when already at or above it).  The Bool reports whether the
already-at-threshold alert fired now. -/
def update_threshold (newThreshold : ℤ) (now currentPercent : ℚ) (s : MState) :
    MState × Bool :=
  let t := max 1 (min 100 newThreshold)
  let s := { s with threshold := t, alerted := false }
  if currentPercent < (t : ℚ) then
    ({ s with startTime := some now, startPercent := some currentPercent,
              reachedTime := none }, false)
  else
    ({ s with reachedTime := some now, alerted := true }, true)

/-- `_update_threshold` of src/app_enhanced.py (lines 233-256).  In the
already-at-threshold branch the code runs `self._trigger_alert()` - but
`EnhancedBatteryMonitor._trigger_alert` (line 594) requires two positional
arguments `(device_type, battery_percentage)`, so this call raises
`TypeError` after `reachedTime` was stamped and before `alerted` is set.
The raise is modelled as `Except.error` carrying the state as mutated up to
the raising statement. -/
def update_threshold_enhanced (newThreshold : ℤ) (now currentPercent : ℚ)
    (s : MState) : Except MState (MState × Bool) :=
  let t := max 1 (min 100 newThreshold)
  let s := { s with threshold := t, alerted := false }
  if currentPercent < (t : ℚ) then
    .ok ({ s with startTime := some now, startPercent := some currentPercent,
                  reachedTime := none }, false)
  else
    .error { s with reachedTime := some now }

/-! ## Event traces: poll ticks interleaved with user commands -/

/-- One event of a monitoring session: a poll tick or a user command drained
from the input loop (src/app.py lines 85-108). -/
inductive Ev where
  | tick (now percent : ℚ) (plugged : Bool)
  | snooze (now : ℚ)
  | dismiss (plugged : Bool)
  | setThreshold (newThreshold : ℤ) (now currentPercent : ℚ)
deriving DecidableEq, Repr

def Ev.isSnooze : Ev → Bool
  | .snooze _ => true
  | _ => false

/-- Effect of one event on the monitor state; second component true when the
notification sink `_trigger_alert` was invoked, third when the re-arm
transition fired.  User commands never invoke the sink (the beep in the
`set` command path is not the sink). -/
def step (e : Ev) (s : MState) : MState × Bool × Bool :=
  match e with
  | .tick now percent plugged => tick now percent plugged s
  | .snooze now => (handle_snooze now s, false, false)
  | .dismiss plugged => ((handle_dismiss plugged s).1, false, false)
  | .setThreshold n now p => ((update_threshold n now p s).1, false, false)

/-- Run an event trace; returns the final state, the total number of
notification-sink invocations and the total number of re-arm transitions. -/
def run (evs : List Ev) (s : MState) : MState × ℕ × ℕ :=
  match evs with
  | [] => (s, 0, 0)
  | e :: rest =>
      let r := step e s
      let rr := run rest r.1
      (rr.1, (if r.2.1 then 1 else 0) + rr.2.1, (if r.2.2 then 1 else 0) + rr.2.2)

/-! ## Charge-time estimator: `_estimate_charge_time` (src/app.py lines 477-525)

The Python method returns a formatted string or `None`; here the numeric
value `estimated_seconds = remaining_percent / rate_per_second` is returned
(formatting is display only), and `None` becomes `Option.none`.  The state
fields it reads are passed explicitly: `threshold`, the session anchors
`startTime`/`startPercent`, the current wall-clock time (the method computes
`elapsed = now - startTime`), and the per-minute diffs. -/

def estimate_charge_time (threshold : ℤ) (startTime startPercent : Option ℚ)
    (now : ℚ) (diffs : List ℚ) (currentPercent : ℚ) (plugged : Bool) :
    Option ℚ :=
  if !plugged then none else
  match startTime, startPercent with
  | some st, some sp =>
      let elapsedSeconds := now - st
      if elapsedSeconds < 10 then none
      else
        let ratePerSecond? : Option ℚ :=
          if diffs ≠ [] then
            let avgPerMinute := diffs.sum / (diffs.length : ℚ)
            if avgPerMinute ≤ 0 then none
            else some (avgPerMinute / 60)
          else
            let difference := currentPercent - sp
            if difference ≤ 0 then none
            else some (difference / elapsedSeconds)
        match ratePerSecond? with
        | none => none
        | some ratePerSecond =>
            if ratePerSecond ≤ 0 then none
            else
              let targetPercent : ℚ :=
                if currentPercent < (threshold : ℚ) then (threshold : ℚ)
                else 100
              let remainingPercent := targetPercent - currentPercent
              if remainingPercent ≤ 0 then none
              else some (remainingPercent / ratePerSecond)
  | _, _ => none

/-! ## Charge-cycle close: `_end_charge_cycle` (src/app_enhanced.py lines
569-592) feeding `DatabaseManager.end_charge_cycle` (src/database.py lines
173-190). -/

/-- The `ChargeCycle` database row (src/models.py), with the fields
`end_charge_cycle` touches. -/
structure ChargeCycle where
  startTime : ℚ
  startPercentage : ℚ
  targetPercentage : ℚ
  endTime : Option ℚ
  endPercentage : Option ℚ
  durationSeconds : Option ℤ
  minDelta : Option ℚ
  maxDelta : Option ℚ
  avgDelta : Option ℚ
  completed : Bool
deriving DecidableEq, Repr

/-- Python `sum(xs) / len(xs) if xs else None`. -/
def pyAvg (xs : List ℚ) : Option ℚ :=
  if xs = [] then none else some (xs.sum / (xs.length : ℚ))

/-- `_end_charge_cycle` computes `min(self._per_minute_diffs)`,
`max(...)`, `sum(...)/len(...)` when the list is nonempty and `None`
otherwise, then `DatabaseManager.end_charge_cycle` stamps the end fields and
marks the row completed.  Python `min`/`max` over a nonempty list are
`List.min?`/`List.max?`. -/
def end_charge_cycle (diffs : List ℚ) (now endPercentage : ℚ)
    (c : ChargeCycle) : ChargeCycle :=
  { c with
    endTime := some now
    endPercentage := some endPercentage
    durationSeconds := some ⌊now - c.startTime⌋
    minDelta := diffs.min?
    maxDelta := diffs.max?
    avgDelta := pyAvg diffs
    completed := true }

/-! ## Adaptive poll policy: `get_adaptive_poll_interval`
(src/ml_predictor.py lines 191-213). -/

def get_adaptive_poll_interval (currentPercentage targetPercentage : ℚ)
    (baseInterval : ℤ) : ℤ :=
  if (targetPercentage : ℚ) ≤ currentPercentage then baseInterval
  else
    let remaining := targetPercentage - currentPercentage
    if remaining ≤ 2 then 10
    else if remaining ≤ 5 then 15
    else if remaining ≤ 10 then 20
    else baseInterval

/-! ## Lemmas about the minute-delta loop -/

theorem floorSteps_eq_zero_iff (e : ℚ) : (⌊e / 60⌋).toNat = 0 ↔ e < 60 := by
  constructor
  · intro h
    by_contra hlt
    push_neg at hlt
    have h1 : (1 : ℤ) ≤ ⌊e / 60⌋ := by
      rw [Int.le_floor]
      push_cast
      linarith
    omega
  · intro h
    have h1 : ⌊e / 60⌋ < 1 := by
      rw [Int.floor_lt]
      push_cast
      linarith
    omega

theorem floorSteps_succ (e : ℚ) (h : 60 ≤ e) :
    (⌊(e - 60) / 60⌋).toNat + 1 = (⌊e / 60⌋).toNat := by
  have hdiv : (e - 60) / 60 = e / 60 - 1 := by ring
  have hfl : ⌊(e - 60) / 60⌋ = ⌊e / 60⌋ - 1 := by
    rw [hdiv, Int.floor_sub_one]
  have h1 : (1 : ℤ) ≤ ⌊e / 60⌋ := by
    rw [Int.le_floor]
    push_cast
    linarith
  omega

theorem minuteLoopGo_spec (n : ℕ) (p : ℚ) :
    ∀ (anchorT anchorP elapsed : ℚ) (d : List ℚ),
    n = (⌊elapsed / 60⌋).toNat →
    minuteLoopGo p n anchorT anchorP elapsed d =
      (anchorT + 60 * (n : ℚ),
       (if n = 0 then anchorP else p),
       d ++ (if n = 0 then [] else (p - anchorP) :: List.replicate (n - 1) 0)) := by
  induction n with
  | zero =>
      intro anchorT anchorP elapsed d _
      simp [minuteLoopGo]
  | succ m ih =>
      intro anchorT anchorP elapsed d h
      have h60 : 60 ≤ elapsed := by
        by_contra hlt
        push_neg at hlt
        have := (floorSteps_eq_zero_iff elapsed).mpr hlt
        omega
      have hm : m = (⌊(elapsed - 60) / 60⌋).toNat := by
        have := floorSteps_succ elapsed h60
        omega
      rw [minuteLoopGo, if_pos h60, ih (anchorT + 60) p (elapsed - 60) (d ++ [p - anchorP]) hm]
      rcases m with _ | k
      · simp
      · simp [List.replicate_succ, sub_self]
        ring

/-- Number of iterations the per-minute while loop performs for a given
elapsed time: `⌊elapsed/60⌋`, clipped at zero. -/
def steps (e : ℚ) : ℕ := (⌊e / 60⌋).toNat

theorem minuteLoop_spec (p anchorT anchorP elapsed : ℚ) (d : List ℚ) :
    minuteLoop p anchorT anchorP elapsed d =
      (anchorT + 60 * (steps elapsed : ℚ),
       (if steps elapsed = 0 then anchorP else p),
       d ++ (if steps elapsed = 0 then []
             else (p - anchorP) :: List.replicate (steps elapsed - 1) 0)) :=
  minuteLoopGo_spec _ p anchorT anchorP elapsed d rfl

theorem observe_spec (now p : ℚ) (st : RateState) :
    observe now p st =
      ⟨st.anchorTime + 60 * (steps (now - st.anchorTime) : ℚ),
       (if steps (now - st.anchorTime) = 0 then st.anchorPercent else p),
       st.diffs ++ (if steps (now - st.anchorTime) = 0 then []
         else (p - st.anchorPercent)
           :: List.replicate (steps (now - st.anchorTime) - 1) 0)⟩ := by
  simp [observe, minuteLoop_spec]

theorem appended_diffs_length (k : ℕ) (x : ℚ) :
    (if k = 0 then ([] : List ℚ) else x :: List.replicate (k - 1) 0).length = k := by
  cases k <;> simp

theorem steps_cast_eq_floor (e : ℚ) (h : 0 ≤ e) :
    ((steps e : ℕ) : ℚ) = (⌊e / 60⌋ : ℤ) := by
  have h0 : 0 ≤ ⌊e / 60⌋ := Int.floor_nonneg.mpr (by positivity)
  have h1 : ((⌊e / 60⌋.toNat : ℕ) : ℤ) = ⌊e / 60⌋ := Int.toNat_of_nonneg h0
  unfold steps
  exact_mod_cast h1

theorem anchor_bounds (a now : ℚ) (h : a ≤ now) :
    a + 60 * (steps (now - a) : ℚ) ≤ now
    ∧ now - (a + 60 * (steps (now - a) : ℚ)) < 60 := by
  have he : 0 ≤ now - a := by linarith
  rw [steps_cast_eq_floor (now - a) he]
  have h1 : ((⌊(now - a) / 60⌋ : ℤ) : ℚ) ≤ (now - a) / 60 := Int.floor_le _
  have h2 : (now - a) / 60 < (⌊(now - a) / 60⌋ : ℤ) + 1 := Int.lt_floor_add_one _
  constructor <;> nlinarith

theorem steps_shift (e : ℚ) (k : ℕ) (h : 0 ≤ e) :
    steps (e + 60 * (k : ℚ)) = steps e + k := by
  unfold steps
  have hdiv : (e + 60 * (k : ℚ)) / 60 = e / 60 + (k : ℚ) := by
    ring
  rw [hdiv, Int.floor_add_nat]
  have h0 : 0 ≤ ⌊e / 60⌋ := Int.floor_nonneg.mpr (by positivity)
  omega

theorem observeAll_spec (rs : List (ℚ × ℚ)) :
    ∀ st : RateState,
    List.Chain (fun a b => a ≤ b) st.anchorTime (rs.map Prod.fst) →
    (observeAll rs st).anchorTime
        = st.anchorTime + 60 * ((steps (lastTime rs st - st.anchorTime) : ℕ) : ℚ)
    ∧ (observeAll rs st).diffs.length
        = st.diffs.length + steps (lastTime rs st - st.anchorTime)
    ∧ (observeAll rs st).anchorTime ≤ lastTime rs st := by
  induction rs with
  | nil =>
      intro st _
      simp [observeAll, lastTime, steps]
  | cons r rest ih =>
      intro st hchain
      obtain ⟨t, p⟩ := r
      rw [List.map_cons, List.chain_cons] at hchain
      obtain ⟨hat, hchain2⟩ := hchain
      have hobs := observe_spec t p st
      have hfold : observeAll ((t, p) :: rest) st = observeAll rest (observe t p st) := by
        simp [observeAll]
      have hanch : (observe t p st).anchorTime
          = st.anchorTime + 60 * (steps (t - st.anchorTime) : ℚ) := by
        rw [hobs]
      have hlen : (observe t p st).diffs.length
          = st.diffs.length + steps (t - st.anchorTime) := by
        rw [hobs]
        simp [appended_diffs_length]
      have hbnd := anchor_bounds st.anchorTime t hat
      have hanchle : (observe t p st).anchorTime ≤ t := by
        rw [hanch]; exact hbnd.1
      rcases rest with _ | ⟨⟨u, q⟩, rest2⟩
      · refine ⟨?_, ?_, ?_⟩
        · rw [hfold]
          simpa [observeAll, lastTime] using hanch
        · rw [hfold]
          simpa [observeAll, lastTime] using hlen
        · rw [hfold]
          simpa [observeAll, lastTime] using hanchle
      · rw [List.map_cons, List.chain_cons] at hchain2
        obtain ⟨htu, hchain3⟩ := hchain2
        have hchain4 : List.Chain (fun a b => a ≤ b) (observe t p st).anchorTime
            (((u, q) :: rest2).map Prod.fst) := by
          rw [List.map_cons, List.chain_cons]
          exact ⟨le_trans hanchle htu, hchain3⟩
        have hih := ih (observe t p st) hchain4
        have hlast : lastTime ((t, p) :: (u, q) :: rest2) st
            = lastTime ((u, q) :: rest2) (observe t p st) := by
          unfold lastTime
          rw [List.getLast?_cons_cons]
          cases hgl : ((u, q) :: rest2).getLast? with
          | none => exact absurd (List.getLast?_eq_none_iff.mp hgl) (List.cons_ne_nil _ _)
          | some x => simp
        set T := lastTime ((u, q) :: rest2) (observe t p st) with hT
        have hTge : (observe t p st).anchorTime ≤ T := by
          have h60 : (observe t p st).anchorTime ≤ (observeAll ((u, q) :: rest2) (observe t p st)).anchorTime := by
            rw [hih.1]
            have : (0 : ℚ) ≤ 60 * ((steps (T - (observe t p st).anchorTime) : ℕ) : ℚ) := by
              positivity
            linarith
          exact le_trans h60 hih.2.2
        have hsplit : T - st.anchorTime
            = (T - (observe t p st).anchorTime) + 60 * ((steps (t - st.anchorTime) : ℕ) : ℚ) := by
          rw [hanch]; ring
        have hsteps : steps (T - st.anchorTime)
            = steps (T - (observe t p st).anchorTime) + steps (t - st.anchorTime) := by
          rw [hsplit]
          exact steps_shift _ _ (by linarith)
        refine ⟨?_, ?_, ?_⟩
        · rw [hfold, hlast, hih.1, hsteps, hanch]
          push_cast
          ring
        · rw [hfold, hlast, hih.2.1, hlen, hsteps]
          omega
        · rw [hfold, hlast]
          exact hih.2.2

/-! ## Lemmas about the alert lifecycle

`alertPotential` counts how many notifications may still fire before the
next re-arm: one while the alert is neither active nor dismissed, zero
afterwards. -/

def alertPotential (s : MState) : ℕ :=
  if s.alertActive || s.dismissed then 0 else 1

theorem minuteTrack_flags (now p : ℚ) (s : MState) :
    (minuteTrack now p s).alertActive = s.alertActive
    ∧ (minuteTrack now p s).dismissed = s.dismissed := by
  unfold minuteTrack
  rcases hA : s.anchorTime with _ | a <;> rcases hP : s.anchorPercent with _ | b <;> simp

theorem triggerStep_char (now p : ℚ) (pl : Bool) (s : MState) :
    (triggerStep now p pl s).1.dismissed = s.dismissed
    ∧ (triggerStep now p pl s).2
        = (pl && (!s.dismissed) && decide ((s.threshold : ℚ) ≤ p) && (!s.alertActive))
    ∧ (triggerStep now p pl s).1.alertActive
        = (s.alertActive || (triggerStep now p pl s).2) := by
  obtain ⟨th, st0, sp0, rt, al, aa, su, di, lb, a1, a2, df⟩ := s
  unfold triggerStep
  by_cases hth : ((th : ℚ) ≤ p) <;> cases pl <;> cases di <;> cases aa <;> cases rt <;>
    simp [hth]

theorem triggerStep_facts (now p : ℚ) (pl : Bool) (s : MState) :
    (triggerStep now p pl s).1.dismissed = s.dismissed
    ∧ ((triggerStep now p pl s).2 = true →
        s.alertActive = false ∧ s.dismissed = false
        ∧ (triggerStep now p pl s).1.alertActive = true)
    ∧ ((triggerStep now p pl s).2 = false →
        (triggerStep now p pl s).1.alertActive = s.alertActive)
    ∧ (¬ ((s.threshold : ℚ) ≤ p) → (triggerStep now p pl s).2 = false) := by
  obtain ⟨hd, hn, ha⟩ := triggerStep_char now p pl s
  refine ⟨hd, ?_, ?_, ?_⟩
  · intro h
    rw [h] at ha hn
    have hn2 : (pl && !s.dismissed && decide ((s.threshold : ℚ) ≤ p) && !s.alertActive)
        = true := hn.symm
    simp only [Bool.and_eq_true] at hn2
    refine ⟨by simpa using hn2.2, by simpa using hn2.1.1.2, by simpa using ha⟩
  · intro h
    rw [h] at ha
    simpa using ha
  · intro h
    rw [hn]
    simp [h]

theorem snoozeGate_facts (now p : ℚ) (pl : Bool) (s : MState) :
    (snoozeGate now p pl s).1.dismissed = s.dismissed
    ∧ ((snoozeGate now p pl s).2 = true →
        s.alertActive = false ∧ s.dismissed = false
        ∧ (snoozeGate now p pl s).1.alertActive = true)
    ∧ ((snoozeGate now p pl s).2 = false →
        (snoozeGate now p pl s).1.alertActive = s.alertActive)
    ∧ (¬ ((s.threshold : ℚ) ≤ p) → (snoozeGate now p pl s).2 = false) := by
  unfold snoozeGate
  rcases hS : s.snoozeUntil with _ | su
  · exact triggerStep_facts now p pl s
  · dsimp only
    split_ifs with hlt
    · exact ⟨rfl, by simp, fun _ => rfl, fun _ => rfl⟩
    · simpa using triggerStep_facts now p pl { s with snoozeUntil := none }

theorem applyRearm_char (p : ℚ) (s : MState) :
    (applyRearm p s).2 = (decide (p < (s.threshold : ℚ)) && !s.lastBelow)
    ∧ (applyRearm p s).1.threshold = s.threshold
    ∧ ((applyRearm p s).2 = true →
        (applyRearm p s).1.alertActive = false
        ∧ (applyRearm p s).1.dismissed = false
        ∧ p < ((s.threshold : ℚ)))
    ∧ ((applyRearm p s).2 = false →
        (applyRearm p s).1.alertActive = s.alertActive
        ∧ (applyRearm p s).1.dismissed = s.dismissed) := by
  obtain ⟨th, st0, sp0, rt, al, aa, su, di, lb, a1, a2, df⟩ := s
  unfold applyRearm
  by_cases hb : (p < (th : ℚ)) <;> cases lb <;> simp [hb]

theorem tick_phi (now p : ℚ) (pl : Bool) (s : MState) :
    (if (tick now p pl s).2.1 then 1 else 0) + alertPotential (tick now p pl s).1
      ≤ (if (tick now p pl s).2.2 then 1 else 0) + alertPotential s := by
  have har := applyRearm_char p s
  have hsg := snoozeGate_facts now p pl (applyRearm p s).1
  have hmt := minuteTrack_flags now p (snoozeGate now p pl (applyRearm p s).1).1
  have hpot : alertPotential (tick now p pl s).1
      = alertPotential (snoozeGate now p pl (applyRearm p s).1).1 := by
    show alertPotential (minuteTrack now p (snoozeGate now p pl (applyRearm p s).1).1) = _
    unfold alertPotential
    rw [hmt.1, hmt.2]
  have h21 : (tick now p pl s).2.1 = (snoozeGate now p pl (applyRearm p s).1).2 := rfl
  have h22 : (tick now p pl s).2.2 = (applyRearm p s).2 := rfl
  rw [hpot, h21, h22]
  by_cases hre : (applyRearm p s).2 = true
  · have hflags := har.2.2.1 hre
    have hnot : (snoozeGate now p pl (applyRearm p s).1).2 = false := by
      apply hsg.2.2.2
      rw [har.2.1]
      exact not_le.mpr hflags.2.2
    have haa := hsg.2.2.1 hnot
    have hpots : alertPotential (snoozeGate now p pl (applyRearm p s).1).1 = 1 := by
      unfold alertPotential
      rw [haa, hsg.1, hflags.1, hflags.2.1]
      simp
    rw [hre, hnot, hpots]
    simp [alertPotential]
  · have hre2 : (applyRearm p s).2 = false := by
      cases hfl : (applyRearm p s).2
      · rfl
      · exact absurd hfl hre
    have hfields := har.2.2.2 hre2
    by_cases hn : (snoozeGate now p pl (applyRearm p s).1).2 = true
    · have hflags := hsg.2.1 hn
      have hpots : alertPotential (snoozeGate now p pl (applyRearm p s).1).1 = 0 := by
        unfold alertPotential
        rw [hflags.2.2]
        simp
      have hpot1 : alertPotential s = 1 := by
        unfold alertPotential
        rw [← hfields.1, ← hfields.2, hflags.1, hflags.2.1]
        simp
      rw [hn, hre2, hpots, hpot1]
      simp
    · have hn2 : (snoozeGate now p pl (applyRearm p s).1).2 = false := by
        cases hfl : (snoozeGate now p pl (applyRearm p s).1).2
        · rfl
        · exact absurd hfl hn
      have haa := hsg.2.2.1 hn2
      have hpots : alertPotential (snoozeGate now p pl (applyRearm p s).1).1
          = alertPotential s := by
        unfold alertPotential
        rw [haa, hsg.1, hfields.1, hfields.2]
      rw [hn2, hre2, hpots]

theorem tick_dismiss_inv (now p : ℚ) (pl : Bool) (s : MState)
    (hd : s.dismissed = true) :
    (tick now p pl s).2.1 = false
    ∧ ((tick now p pl s).2.2 = false → (tick now p pl s).1.dismissed = true) := by
  have har := applyRearm_char p s
  have hsg := snoozeGate_facts now p pl (applyRearm p s).1
  have hmt := minuteTrack_flags now p (snoozeGate now p pl (applyRearm p s).1).1
  have h21 : (tick now p pl s).2.1 = (snoozeGate now p pl (applyRearm p s).1).2 := rfl
  have h22 : (tick now p pl s).2.2 = (applyRearm p s).2 := rfl
  have h1d : (tick now p pl s).1.dismissed
      = (snoozeGate now p pl (applyRearm p s).1).1.dismissed := by
    show (minuteTrack now p (snoozeGate now p pl (applyRearm p s).1).1).dismissed = _
    exact hmt.2
  constructor
  · rw [h21]
    by_cases hre : (applyRearm p s).2 = true
    · apply hsg.2.2.2
      rw [har.2.1]
      exact not_le.mpr (har.2.2.1 hre).2.2
    · have hre2 : (applyRearm p s).2 = false := by
        cases hfl : (applyRearm p s).2
        · rfl
        · exact absurd hfl hre
      cases hn : (snoozeGate now p pl (applyRearm p s).1).2
      · rfl
      · have := (hsg.2.1 hn).2.1
        rw [(har.2.2.2 hre2).2, hd] at this
        exact absurd this (by simp)
  · intro hre
    rw [h22] at hre
    rw [h1d, hsg.1, (har.2.2.2 hre).2, hd]

theorem step_phi (e : Ev) (s : MState) (hs : e.isSnooze = false) :
    (if (step e s).2.1 then 1 else 0) + alertPotential (step e s).1
      ≤ (if (step e s).2.2 then 1 else 0) + alertPotential s := by
  cases e with
  | tick now p pl => exact tick_phi now p pl s
  | snooze now => simp [Ev.isSnooze] at hs
  | dismiss pl =>
      simp only [step]
      unfold handle_dismiss alertPotential
      split_ifs <;> simp_all
  | setThreshold n now pp =>
      have hflags : (step (Ev.setThreshold n now pp) s).1.alertActive = s.alertActive
          ∧ (step (Ev.setThreshold n now pp) s).1.dismissed = s.dismissed := by
        simp only [step]
        unfold update_threshold
        dsimp only
        split_ifs <;> exact ⟨rfl, rfl⟩
      have h1 : (step (Ev.setThreshold n now pp) s).2.1 = false := rfl
      have h2 : (step (Ev.setThreshold n now pp) s).2.2 = false := rfl
      rw [h1, h2]
      unfold alertPotential
      rw [hflags.1, hflags.2]

theorem step_dismiss_inv (e : Ev) (s : MState) (hd : s.dismissed = true) :
    (step e s).2.1 = false
    ∧ ((step e s).2.2 = false → (step e s).1.dismissed = true) := by
  cases e with
  | tick now p pl => exact tick_dismiss_inv now p pl s hd
  | snooze now =>
      refine ⟨rfl, fun _ => ?_⟩
      simpa [step, handle_snooze] using hd
  | dismiss pl =>
      refine ⟨rfl, fun _ => ?_⟩
      simp only [step]
      unfold handle_dismiss
      split_ifs <;> simp_all
  | setThreshold n now pp =>
      refine ⟨rfl, fun _ => ?_⟩
      simp only [step]
      unfold update_threshold
      dsimp only
      split_ifs <;> simp_all

theorem run_phi (evs : List Ev) :
    ∀ s : MState, (∀ e ∈ evs, e.isSnooze = false) →
    (run evs s).2.1 + alertPotential (run evs s).1
      ≤ (run evs s).2.2 + alertPotential s := by
  induction evs with
  | nil =>
      intro s _
      simp [run]
  | cons e rest ih =>
      intro s hns
      have hse := step_phi e s (hns e (by simp))
      have hrest := ih (step e s).1 (fun x hx => hns x (by simp [hx]))
      simp only [run]
      cases hb1 : (step e s).2.1 <;> cases hb2 : (step e s).2.2 <;>
        rw [hb1, hb2] at hse <;> simp at hse ⊢ <;> omega

theorem run_dismissed (evs : List Ev) :
    ∀ s : MState, s.dismissed = true → (run evs s).2.2 = 0 →
    (run evs s).2.1 = 0 := by
  induction evs with
  | nil =>
      intro s _ _
      simp [run]
  | cons e rest ih =>
      intro s hd hr
      have hinv := step_dismiss_inv e s hd
      simp only [run] at hr ⊢
      have hb2 : (step e s).2.2 = false := by
        cases hfl : (step e s).2.2
        · rfl
        · rw [hfl] at hr
          simp at hr
      rw [hb2] at hr
      simp at hr
      have := ih (step e s).1 (hinv.2 hb2) hr
      rw [hinv.1, this]
      simp

/-! ## Lemmas about Python min/max over a nonempty list -/

theorem foldl_min_le_init (xs : List ℚ) : ∀ acc : ℚ, xs.foldl min acc ≤ acc := by
  induction xs with
  | nil =>
      intro acc
      simp
  | cons x xs ih =>
      intro acc
      exact le_trans (ih (min acc x)) (min_le_left acc x)

theorem foldl_min_le_mem (xs : List ℚ) :
    ∀ (acc b : ℚ), b ∈ xs → xs.foldl min acc ≤ b := by
  induction xs with
  | nil =>
      intro acc b hb
      simp at hb
  | cons x xs ih =>
      intro acc b hb
      rcases List.mem_cons.mp hb with h | h
      · subst h
        exact le_trans (foldl_min_le_init xs (min acc b)) (min_le_right acc b)
      · exact ih (min acc x) b h

theorem foldl_min_mem (xs : List ℚ) :
    ∀ acc : ℚ, xs.foldl min acc = acc ∨ xs.foldl min acc ∈ xs := by
  induction xs with
  | nil =>
      intro acc
      left
      rfl
  | cons x xs ih =>
      intro acc
      rcases ih (min acc x) with h | h
      · rcases min_choice acc x with hm | hm
        · left
          show List.foldl min (min acc x) xs = acc
          rw [h, hm]
        · right
          show List.foldl min (min acc x) xs ∈ x :: xs
          rw [h, hm]
          exact List.mem_cons_self x xs
      · right
        exact List.mem_cons_of_mem x h

theorem pyMin_spec (l : List ℚ) (m : ℚ) (h : l.min? = some m) :
    m ∈ l ∧ ∀ x ∈ l, m ≤ x := by
  cases l with
  | nil => simp [List.min?] at h
  | cons a as =>
      simp [List.min?] at h
      subst h
      constructor
      · rcases foldl_min_mem as a with h | h
        · rw [h]
          exact List.mem_cons_self a as
        · exact List.mem_cons_of_mem a h
      · intro x hx
        rcases List.mem_cons.mp hx with h | h
        · subst h
          exact foldl_min_le_init as x
        · exact foldl_min_le_mem as a x h

theorem foldl_max_ge_init (xs : List ℚ) : ∀ acc : ℚ, acc ≤ xs.foldl max acc := by
  induction xs with
  | nil =>
      intro acc
      simp
  | cons x xs ih =>
      intro acc
      exact le_trans (le_max_left acc x) (ih (max acc x))

theorem foldl_max_ge_mem (xs : List ℚ) :
    ∀ (acc b : ℚ), b ∈ xs → b ≤ xs.foldl max acc := by
  induction xs with
  | nil =>
      intro acc b hb
      simp at hb
  | cons x xs ih =>
      intro acc b hb
      rcases List.mem_cons.mp hb with h | h
      · subst h
        exact le_trans (le_max_right acc b) (foldl_max_ge_init xs (max acc b))
      · exact ih (max acc x) b h

theorem foldl_max_mem (xs : List ℚ) :
    ∀ acc : ℚ, xs.foldl max acc = acc ∨ xs.foldl max acc ∈ xs := by
  induction xs with
  | nil =>
      intro acc
      left
      rfl
  | cons x xs ih =>
      intro acc
      rcases ih (max acc x) with h | h
      · rcases max_choice acc x with hm | hm
        · left
          show List.foldl max (max acc x) xs = acc
          rw [h, hm]
        · right
          show List.foldl max (max acc x) xs ∈ x :: xs
          rw [h, hm]
          exact List.mem_cons_self x xs
      · right
        exact List.mem_cons_of_mem x h

theorem pyMax_spec (l : List ℚ) (m : ℚ) (h : l.max? = some m) :
    m ∈ l ∧ ∀ x ∈ l, x ≤ m := by
  cases l with
  | nil => simp [List.max?] at h
  | cons a as =>
      simp [List.max?] at h
      subst h
      constructor
      · rcases foldl_max_mem as a with h | h
        · rw [h]
          exact List.mem_cons_self a as
        · exact List.mem_cons_of_mem a h
      · intro x hx
        rcases List.mem_cons.mp hx with h | h
        · subst h
          exact foldl_max_ge_init as x
        · exact foldl_max_ge_mem as a x h

/-! ## Concrete states used by witnesses and counterexamples -/

/-- A freshly started monitor with threshold 80 percent: the state right
after `BatteryMonitor.start()` ran at time 0 with the battery at 50
percent. -/
def s0 : MState :=
  { threshold := 80, startTime := some 0, startPercent := some 50,
    reachedTime := none, alerted := false, alertActive := false,
    snoozeUntil := none, dismissed := false, lastBelow := true,
    anchorTime := some 0, anchorPercent := some 50, diffs := [] }

/-! ## Claim theorems -/

/-- Claim C4: a dismiss command issued while the charger is plugged in is
rejected (the returned flag is false, standing for the printed explanation,
and the method returns without raising) and the whole monitor state -
dismissed flag, alert flags, snooze deadline, reached time and session
anchors - is returned unchanged. -/
theorem c4_theorem (s : MState) : handle_dismiss true s = (s, false) := by
  unfold handle_dismiss
  simp

/-- Claim C5, counterexample: `_handle_snooze` has no guard on the alert
state.  In a state that is not `Alerting` (`alertActive = false`) the snooze
command is still applied and mutates the state (it sets the snooze
deadline), contradicting the claim that it would be rejected with no state
change. -/
theorem c5_counterexample :
    s0.alertActive = false ∧ handle_snooze 0 s0 ≠ s0 := by
  decide

/-- Claim C5 (amended): the snooze command is accepted in every monitor
state - `_handle_snooze` has no `Alerting` guard.  It always sets
`snoozeUntil` to exactly now + 1 minute and clears `alertActive`, leaving
every other field of the monitor state unchanged. -/
theorem c5_theorem (now : ℚ) (s : MState) :
    (handle_snooze now s).snoozeUntil = some (now + 60)
    ∧ (handle_snooze now s).alertActive = false
    ∧ (handle_snooze now s).threshold = s.threshold
    ∧ (handle_snooze now s).startTime = s.startTime
    ∧ (handle_snooze now s).startPercent = s.startPercent
    ∧ (handle_snooze now s).reachedTime = s.reachedTime
    ∧ (handle_snooze now s).alerted = s.alerted
    ∧ (handle_snooze now s).dismissed = s.dismissed
    ∧ (handle_snooze now s).lastBelow = s.lastBelow
    ∧ (handle_snooze now s).diffs = s.diffs :=
  ⟨rfl, rfl, rfl, rfl, rfl, rfl, rfl, rfl, rfl, rfl⟩

/-- Claim C8: the adaptive next-poll delay is 10 s when 0 < target - current
≤ 2, 15 s when 2 < target - current ≤ 5, 20 s when 5 < target - current ≤
10, and the base interval otherwise, in particular whenever current ≥
target. -/
theorem c8_theorem (current target : ℚ) (base : ℤ) :
    get_adaptive_poll_interval current target base
      = if 0 < target - current ∧ target - current ≤ 2 then 10
        else if 2 < target - current ∧ target - current ≤ 5 then 15
        else if 5 < target - current ∧ target - current ≤ 10 then 20
        else base := by
  unfold get_adaptive_poll_interval
  dsimp only
  split_ifs <;> first | rfl | (exfalso; push_neg at *; simp_all; linarith)

/-- Claim C2: with an active session, the charge-time estimator returns no
estimate (an `Option.none`, never an exception - the embedding is a total
function into `Option`) exactly when the device is not plugged in, the
session has less than 10 seconds of elapsed time, the derived rate is
non-positive, or the remaining percentage to the target is non-positive;
otherwise it returns remaining / ratePerSecond, where the rate is the
average of the recorded minute deltas divided by 60 when at least one
exists and (current - start) / elapsed otherwise, and the target is the
threshold when current < threshold, else 100. -/
theorem c2_theorem (threshold : ℤ) (st sp now : ℚ) (diffs : List ℚ)
    (current : ℚ) (plugged : Bool) :
    estimate_charge_time threshold (some st) (some sp) now diffs current plugged
      = (let elapsed := now - st
         let rate : ℚ :=
           if diffs = [] then (current - sp) / elapsed
           else (diffs.sum / (diffs.length : ℚ)) / 60
         let target : ℚ := if current < (threshold : ℚ) then (threshold : ℚ) else 100
         let remaining := target - current
         if plugged = false ∨ elapsed < 10 ∨ rate ≤ 0 ∨ remaining ≤ 0 then none
         else some (remaining / rate)) := by
  unfold estimate_charge_time
  dsimp only
  cases plugged with
  | false => simp
  | true =>
      simp only [Bool.not_true, Bool.false_eq_true, if_false, false_or]
      by_cases he : now - st < 10
      · simp [he]
      · have hepos : (0 : ℚ) < now - st := by
          push_neg at he
          linarith
        rw [if_neg he]
        by_cases hd : diffs = []
        · subst hd
          simp only [ne_eq, not_true_eq_false, if_false, ite_not, if_true]
          by_cases hdiff : current - sp ≤ 0
          · have hrate : (current - sp) / (now - st) ≤ 0 :=
              div_nonpos_of_nonpos_of_nonneg hdiff (le_of_lt hepos)
            simp [hdiff, he, hrate]
          · push_neg at hdiff
            have hrate : 0 < (current - sp) / (now - st) := div_pos hdiff hepos
            simp only [if_neg (not_le.mpr hdiff)]
            rw [if_neg (not_le.mpr hrate)]
            simp [he, not_le.mpr hrate]
        · simp only [hd, ne_eq, not_false_eq_true, if_true]
          by_cases ha : diffs.sum / (diffs.length : ℚ) ≤ 0
          · have hrate : diffs.sum / (diffs.length : ℚ) / 60 ≤ 0 :=
              div_nonpos_of_nonpos_of_nonneg ha (by norm_num)
            simp [ha, he, hrate, hd]
          · push_neg at ha
            have hrate : 0 < diffs.sum / (diffs.length : ℚ) / 60 :=
              div_pos ha (by norm_num)
            simp only [if_neg (not_le.mpr ha)]
            rw [if_neg (not_le.mpr hrate)]
            simp [he, hd, not_le.mpr hrate]

/-- The charge cycle of the C7 scenario: opened at 40 percent with target
80 percent. -/
def c7cycle : ChargeCycle :=
  { startTime := 0, startPercentage := 40, targetPercentage := 80,
    endTime := none, endPercentage := none, durationSeconds := none,
    minDelta := none, maxDelta := none, avgDelta := none, completed := false }

/-- Claim C7: closing a charge cycle marks it completed, computes
minDelta/maxDelta as the minimum and maximum of exactly the minute deltas
passed in and avgDelta as their mean, with all three aggregates null (not
zero) when no deltas were recorded; in particular a cycle closed with
deltas [1.0, 1.2, 0.8] has avgDelta = 1, minDelta = 0.8, maxDelta = 1.2 and
completed = true. -/
theorem c7_theorem (diffs : List ℚ) (now endPct : ℚ) (c : ChargeCycle) :
    (end_charge_cycle diffs now endPct c).completed = true
    ∧ (diffs = [] →
        (end_charge_cycle diffs now endPct c).minDelta = none
        ∧ (end_charge_cycle diffs now endPct c).maxDelta = none
        ∧ (end_charge_cycle diffs now endPct c).avgDelta = none)
    ∧ (∀ m, (end_charge_cycle diffs now endPct c).minDelta = some m →
        m ∈ diffs ∧ ∀ x ∈ diffs, m ≤ x)
    ∧ (∀ m, (end_charge_cycle diffs now endPct c).maxDelta = some m →
        m ∈ diffs ∧ ∀ x ∈ diffs, x ≤ m)
    ∧ (diffs ≠ [] →
        (end_charge_cycle diffs now endPct c).avgDelta
          = some (diffs.sum / (diffs.length : ℚ)))
    ∧ (end_charge_cycle [1, 6/5, 4/5] now endPct c7cycle).avgDelta = some 1
    ∧ (end_charge_cycle [1, 6/5, 4/5] now endPct c7cycle).minDelta = some (4/5)
    ∧ (end_charge_cycle [1, 6/5, 4/5] now endPct c7cycle).maxDelta = some (6/5)
    ∧ (end_charge_cycle [1, 6/5, 4/5] now endPct c7cycle).completed = true := by
  refine ⟨rfl, ?_, ?_, ?_, ?_, ?_, ?_, ?_, rfl⟩
  · intro h
    subst h
    exact ⟨rfl, rfl, rfl⟩
  · intro m hm
    exact pyMin_spec diffs m hm
  · intro m hm
    exact pyMax_spec diffs m hm
  · intro h
    show pyAvg diffs = _
    unfold pyAvg
    rw [if_neg h]
  · show pyAvg [1, 6/5, 4/5] = some 1
    unfold pyAvg
    rw [if_neg (by simp)]
    norm_num
  · show ([1, 6/5, 4/5] : List ℚ).min? = some (4/5)
    norm_num [List.min?, List.foldl, min_def]
  · show ([1, 6/5, 4/5] : List ℚ).max? = some (6/5)
    norm_num [List.max?, List.foldl, max_def]

/-- Claim C7, witness: the closing function applied to the empty delta list
yields null aggregates, and applied to the one-element list [2] yields an
average of 2 and a minimum that is a member of and lower bound for the
list. -/
theorem c7_witness :
    ((end_charge_cycle [] 5 80 c7cycle).minDelta = none
      ∧ (end_charge_cycle [] 5 80 c7cycle).maxDelta = none
      ∧ (end_charge_cycle [] 5 80 c7cycle).avgDelta = none)
    ∧ (end_charge_cycle [2] 5 80 c7cycle).avgDelta
        = some (([2] : List ℚ).sum / (([2] : List ℚ).length : ℚ))
    ∧ ((2 : ℚ) ∈ ([2] : List ℚ) ∧ ∀ x ∈ ([2] : List ℚ), (2 : ℚ) ≤ x) :=
  ⟨(c7_theorem [] 5 80 c7cycle).2.1 rfl,
   (c7_theorem [2] 5 80 c7cycle).2.2.2.2.1 (by decide),
   (c7_theorem [2] 5 80 c7cycle).2.2.1 2 (by decide)⟩

/-- Claim C1, counterexample: starting from the freshly started monitor
with threshold 80 and the battery at or above it, the trace tick - snooze -
tick (after the one-minute snooze lapsed) invokes the notification sink
twice while no re-arm transition (no drop below threshold) ever occurs, so
the sink fires twice within a single arm-cycle: `_handle_snooze` clears
`_alert_active`, and the trigger block fires the sink again once the snooze
expires. -/
theorem c1_counterexample :
    (run [Ev.tick 0 85 true, Ev.snooze 5, Ev.tick 70 85 true] s0).2.1 = 2
    ∧ (run [Ev.tick 0 85 true, Ev.snooze 5, Ev.tick 70 85 true] s0).2.2 = 0 := by
  norm_num [run, step, tick, applyRearm, snoozeGate, triggerStep, minuteTrack,
    minuteLoop, minuteLoopGo, handle_snooze, s0, Option.some_ne_none]

/-- Claim C1 (amended): over every trace of poll ticks and user commands
that contains no snooze command, the notification sink is invoked at most
once per arm-cycle: the total number of sink invocations is at most the
number of re-arm transitions plus one (and since this holds from every
start state, every segment between two consecutive re-arms carries at most
one invocation).  Moreover - with snooze commands allowed again - once a
dismiss has been accepted, no further sink invocation occurs until a re-arm
transition (a drop below threshold) is observed, no matter how many ticks
see the percentage at or above the threshold. -/
theorem c1_theorem :
    (∀ (evs : List Ev) (s : MState), (∀ e ∈ evs, e.isSnooze = false) →
       (run evs s).2.1 ≤ (run evs s).2.2 + 1)
    ∧ (∀ (evs : List Ev) (s : MState), s.dismissed = true →
       (run evs s).2.2 = 0 → (run evs s).2.1 = 0) := by
  constructor
  · intro evs s h
    have hrun := run_phi evs s h
    have h1 : alertPotential s ≤ 1 := by
      unfold alertPotential
      split_ifs <;> omega
    omega
  · exact fun evs s => run_dismissed evs s

/-- Claim C1, witness: the bound applied to a concrete snooze-free trace,
and the after-dismiss guarantee applied to a concrete dismissed state over
many ticks at or above the threshold. -/
theorem c1_witness :
    (run [Ev.tick 0 85 true, Ev.dismiss false, Ev.tick 30 85 true] s0).2.1
      ≤ (run [Ev.tick 0 85 true, Ev.dismiss false, Ev.tick 30 85 true] s0).2.2 + 1
    ∧ (run [Ev.tick 0 85 true, Ev.snooze 5, Ev.tick 70 85 true]
        { s0 with dismissed := true, lastBelow := false }).2.1 = 0 :=
  ⟨c1_theorem.1 [Ev.tick 0 85 true, Ev.dismiss false, Ev.tick 30 85 true] s0
      (by decide),
   c1_theorem.2 [Ev.tick 0 85 true, Ev.snooze 5, Ev.tick 70 85 true]
      { s0 with dismissed := true, lastBelow := false } (by rfl)
      (by norm_num [run, step, tick, applyRearm, snoozeGate, triggerStep,
        minuteTrack, minuteLoop, minuteLoopGo, handle_snooze, s0,
        Option.some_ne_none])⟩

/-- Initial rate-estimator states and reading sequences used by the
witnesses of C3 and C9. -/
def c3st : RateState := { anchorTime := 0, anchorPercent := 50, diffs := [] }

def c3rs : List (ℚ × ℚ) := [(50, 51), (100, 52), (130, 53)]

/-- Claim C3: over any monitoring session whose readings are spaced less
than 60 seconds apart (times nondecreasing), the per-minute tracking
appends exactly floor(totalElapsed/60) minute deltas, and the final minute
anchor sits at the session start plus exactly 60 seconds per appended delta
(the anchor is advanced by exactly 60 s per delta and never snapped to the
current time; the windows are therefore contiguous and disjoint).  This
also covers a tick spanning several complete 60-second windows, since the
proof only uses that the times are nondecreasing. -/
theorem c3_theorem (st : RateState) (rs : List (ℚ × ℚ))
    (h : List.Chain (fun a b => a ≤ b ∧ b - a < 60) st.anchorTime
      (rs.map Prod.fst)) :
    (observeAll rs st).diffs.length
      = st.diffs.length + (⌊(lastTime rs st - st.anchorTime) / 60⌋).toNat
    ∧ (observeAll rs st).anchorTime
      = st.anchorTime
        + 60 * (((observeAll rs st).diffs.length - st.diffs.length : ℕ) : ℚ) := by
  have h2 : List.Chain (fun a b => a ≤ b) st.anchorTime (rs.map Prod.fst) :=
    List.Chain.imp (fun a b hab => hab.1) h
  obtain ⟨ha, hl, _⟩ := observeAll_spec rs st h2
  refine ⟨by simpa [steps] using hl, ?_⟩
  rw [ha, hl]
  simp [steps]

/-- Claim C3, witness: three readings 50 s apart over 130 s of elapsed time
yield exactly two minute deltas and an anchor advanced by exactly two
60-second windows. -/
theorem c3_witness :
    (observeAll c3rs c3st).diffs.length
      = c3st.diffs.length + (⌊(lastTime c3rs c3st - c3st.anchorTime) / 60⌋).toNat
    ∧ (observeAll c3rs c3st).anchorTime
      = c3st.anchorTime
        + 60 * (((observeAll c3rs c3st).diffs.length - c3st.diffs.length : ℕ) : ℚ) :=
  c3_theorem c3st c3rs (by norm_num [c3rs, c3st, List.chain_cons])

/-- Claim C6, counterexample: the retained minute-delta list is not bounded
by 1000 entries.  From the freshly started estimator, a single reading
whose gap since the anchor spans 1001 complete 60-second windows (as after
a suspend/resume) leaves 1001 retained deltas: nothing in
`BatteryMonitor` ever trims `_per_minute_diffs`. -/
theorem c6_counterexample :
    1000 < (observe 60060 55
      ({ anchorTime := 0, anchorPercent := 50, diffs := [] } : RateState)).diffs.length := by
  have hst : steps ((60060 : ℚ) - 0) = 1001 := by
    unfold steps
    norm_num
    rfl
  rw [observe_spec]
  show 1000 < (([] : List ℚ) ++ (if steps ((60060 : ℚ) - 0) = 0 then []
      else ((55 : ℚ) - 50) :: List.replicate (steps ((60060 : ℚ) - 0) - 1) 0)).length
  rw [hst]
  norm_num

/-- Claim C6 (amended): the retained minute-delta sequence is an unbounded
plain list: each completed 60-second window appends exactly one entry and
no code path ever removes entries, so after k complete windows the list
holds exactly k entries - for every k, beyond any fixed bound.  (The only
1000-entry cap in the repository is on the ML predictor training-data
cache in `ml_predictor.update_with_reading`, not on
`_per_minute_diffs`.) -/
theorem c6_theorem (k : ℕ) (p : ℚ) :
    (observe (60 * (k : ℚ)) p
      ({ anchorTime := 0, anchorPercent := 50, diffs := [] } : RateState)).diffs.length
      = k := by
  have h0 : steps (0 : ℚ) = 0 := by
    unfold steps
    norm_num
  have h2 := steps_shift 0 k le_rfl
  rw [h0] at h2
  rw [observe_spec]
  show (([] : List ℚ) ++ (if steps ((60 * (k : ℚ)) - 0) = 0 then []
      else (p - 50) :: List.replicate (steps ((60 * (k : ℚ)) - 0) - 1) 0)).length = k
  rw [List.nil_append, show ((60 * (k : ℚ)) - 0) = (0 : ℚ) + 60 * (k : ℚ) by ring, h2]
  simpa using appended_diffs_length k (p - 50)

/-- Claim C9: when a single poll tick catches up a gap spanning k ≥ 2
complete 60-second windows, the first delta appended in that tick is the
entire percentage change since the minute anchor and the remaining k - 1
deltas are exactly 0, because the anchor percentage is reset to the current
reading after every append (and the final anchor percentage is the current
reading). -/
theorem c9_theorem (st : RateState) (now p : ℚ) (k : ℕ)
    (hk : k = (⌊(now - st.anchorTime) / 60⌋).toNat) (h2 : 2 ≤ k) :
    (observe now p st).diffs
      = st.diffs ++ ((p - st.anchorPercent) :: List.replicate (k - 1) 0)
    ∧ (observe now p st).anchorPercent = p := by
  have hs : steps (now - st.anchorTime) = k := by
    unfold steps
    omega
  have hne : k ≠ 0 := by omega
  constructor
  · rw [observe_spec]
    show (st.diffs ++ (if steps (now - st.anchorTime) = 0 then []
        else (p - st.anchorPercent)
          :: List.replicate (steps (now - st.anchorTime) - 1) 0)) = _
    rw [hs, if_neg hne]
  · rw [observe_spec]
    show (if steps (now - st.anchorTime) = 0 then st.anchorPercent else p) = p
    rw [hs, if_neg hne]

/-- Claim C9, witness: a tick at t = 125 s from an anchor at t = 0 spans
two complete windows; the two deltas appended are the whole change and
zero. -/
theorem c9_witness :
    (observe 125 53 c3st).diffs
      = c3st.diffs ++ (((53 : ℚ) - c3st.anchorPercent) :: List.replicate (2 - 1) 0)
    ∧ (observe 125 53 c3st).anchorPercent = 53 :=
  c9_theorem c3st 125 53 2 (by norm_num [c3st]; rfl) (by norm_num)

/-- Claim C10: for a `set <percent>` command whose clamped threshold is at
or below the current percentage, `_update_threshold` of src/app.py stamps
`reachedTime = now`, fires the alert, sets `alerted`, and leaves the
session anchors unchanged, regardless of the charging state (the function
never reads the plugged flag); only when the current percentage is below
the new threshold are the session anchors reset.  But the enhanced variant
(src/app_enhanced.py line 251) calls `self._trigger_alert()` without the
two required positional arguments in exactly that branch, raising
`TypeError` after `reachedTime` was stamped and before `alerted` is set:
evaluated at the failing input (battery at 80 percent, command `set 50`),
it errors out with `alerted` still false. -/
theorem c10_theorem :
    (update_threshold_enhanced 50 200 80 s0
        = .error { s0 with threshold := 50, alerted := false, reachedTime := some 200 }
      ∧ ({ s0 with threshold := 50, alerted := false,
                   reachedTime := some 200 } : MState).alerted = false)
    ∧ (∀ (n : ℤ) (now cur : ℚ) (s : MState),
        update_threshold n now cur s
          = if ((max 1 (min 100 n) : ℤ) : ℚ) ≤ cur then
              ({ s with threshold := max 1 (min 100 n), alerted := true,
                        reachedTime := some now }, true)
            else
              ({ s with threshold := max 1 (min 100 n), alerted := false,
                        startTime := some now, startPercent := some cur,
                        reachedTime := none }, false)) := by
  constructor
  · constructor
    · unfold update_threshold_enhanced
      have hm : (max 1 (min 100 (50 : ℤ))) = 50 := by
        norm_num
      rw [hm]
      norm_num
    · rfl
  · intro n now cur s
    unfold update_threshold
    dsimp only
    rcases lt_or_ge cur ((max 1 (min 100 n) : ℤ) : ℚ) with h | h
    · rw [if_pos h, if_neg (not_le.mpr h)]
    · rw [if_neg (not_lt.mpr h), if_pos h]

end Battery
